import Mathlib

/-!
# Application kernel of `ld41`: the fixed-timestep loop of `src/Application.cpp`

The development embeds `Application::run`, `Application::processEvents`,
`Application::update`, `Application::render` and `Application::updateStatistics`
as pure functions on an explicit application state.

* `Time` values are exact integers (a count of clock units, e.g. microseconds).
* The collaborators that are not part of `Application.cpp` (event subscribers, the
  system manager, the state stack) are a parameter: a state type `σ` together with
  the effect of each call on it (`Env`).
* Every call that leaves `Application.cpp` is recorded, in program order, in
  `App.trace`.
* The window is an `sf::RenderWindow`: once `close()` has been called it has no
  implementation any more and `pollEvent` returns `false`.
-/

namespace Application

/-! ## The program -/

/-- Raw events returned by `sf::Window::pollEvent`; `other` stands for every
event type that falls into the `default` branch of the `switch`. -/
inductive RawEvent
  | closed
  | keyPressed (code : Int)
  | joystickButtonPressed (button : Nat)
  | joystickMoved (joystickId axis : Nat) (position : ℚ)
  | other (kind : Nat)
  deriving DecidableEq

/-- Typed events that `Application.cpp` emits on the event manager. -/
inductive Event
  | beforeGameTick
  | gameTick (dt : Int)
  | afterGameTick
  | render
  | keyPressed (code : Int)
  | joystickButtonPressed (button : Nat)
  | joystickXAnalog (position : ℚ)
  deriving DecidableEq

/-- Calls made by `Application.cpp`, as they are recorded in the trace. -/
inductive Action
  | emit (e : Event)
  | closeWindow
  | processEvents
  | updateAll (dt : Int)
  | updateStatistics (dt : Int)
  | clear
  | setView
  | draw
  | drawStatistics
  | display
  deriving DecidableEq

/-- The collaborators of `Application`: constants of the missing headers and the
effect of external code on the external state `σ`. -/
structure Env (σ : Type) where
  /-- The constant `Application::timePerFrame`. -/
  timePerFrame : Int
  /-- The constant `seconds(1.f)`. -/
  oneSecond : Int
  /-- The conversion `Time::milliseconds`. -/
  milliseconds : Int → Int
  /-- The division `milliseconds() / mStatisticsNumFrames`, in the arithmetic of the
  types declared in the missing header. -/
  divide : Int → Nat → Int
  /-- Effect of `EventManager::emit`: the subscribed handlers run synchronously. -/
  handlers : Event → σ → σ
  /-- Effect of `SystemManager::updateAll`. -/
  updateAll : Int → σ → σ
  /-- The query `mStateStack.isEmpty()`. -/
  isEmpty : σ → Bool
  /-- Raw events the operating system has queued when tick `n` polls. -/
  arrivals : Nat → List RawEvent
  /-- Position of the X axis of joystick 0 when tick `n` polls. -/
  axisX : Nat → ℚ

/-- State of the application as far as `Application.cpp` reads or writes it. -/
structure App (σ : Type) where
  /-- Result of `mWindow->isOpen()`. -/
  isOpen : Bool
  /-- Raw events waiting in the window. -/
  queue : List RawEvent
  /-- Result of `sf::Joystick::getAxisPosition(0, sf::Joystick::Axis::X)`. -/
  joystickX : ℚ
  /-- State of the external collaborators (state stack, subscribers, systems). -/
  ext : σ
  /-- Member `mStatisticsUpdateTime`. -/
  statisticsUpdateTime : Int
  /-- Member `mStatisticsNumFrames`. -/
  statisticsNumFrames : Nat
  /-- The two numbers last written into `mStatisticsText`, if any. -/
  statisticsText : Option (Nat × Int)
  /-- Number of bodies of the inner loop of `run` started so far. -/
  ticks : Nat
  /-- Number of bodies of the outer loop of `run` started so far. -/
  frames : Nat
  /-- Calls made so far, oldest first. -/
  trace : List Action

variable {σ : Type}

/-- Record one call in the trace. -/
def record (a : Action) (app : App σ) : App σ :=
  { app with trace := app.trace ++ [a] }

/-- The call `mServiceContainer.get<EventManager>()->emit(e)`. -/
def emit (env : Env σ) (e : Event) (app : App σ) : App σ :=
  record (Action.emit e) { app with ext := env.handlers e app.ext }

/-- The call `mWindow->close()`: the window is destroyed and stays closed. -/
def closeWindow (app : App σ) : App σ :=
  record Action.closeWindow { app with isOpen := false }

/-- The `switch (event.type)` of `processEvents`. -/
def translate (env : Env σ) (e : RawEvent) (app : App σ) : App σ :=
  match e with
  | RawEvent.closed => closeWindow app
  | RawEvent.joystickButtonPressed b => emit env (Event.joystickButtonPressed b) app
  | RawEvent.keyPressed c => emit env (Event.keyPressed c) app
  | _ => app

/-- The loop `while (mWindow->pollEvent(event))` over the waiting events: on an open
window each round removes the head of the queue and translates it; the loop ends
when the queue is empty or when the window is closed, because `pollEvent` returns
`false` on a window that `close()` has destroyed. -/
def pollLoop (env : Env σ) : List RawEvent → App σ → App σ
  | [], app => { app with queue := [] }
  | e :: q, app =>
    if app.isOpen then pollLoop env q (translate env e { app with queue := q })
    else { app with queue := e :: q }

/-- The function `Application::processEvents`. -/
def processEvents (env : Env σ) (app : App σ) : App σ :=
  let app := record Action.processEvents app
  let app := pollLoop env app.queue app
  if app.joystickX > 45 ∨ app.joystickX < -45 then
    emit env (Event.joystickXAnalog app.joystickX) app
  else app

/-- The function `Application::update`. -/
def update (env : Env σ) (dt : Int) (app : App σ) : App σ :=
  let app := emit env (Event.gameTick dt) app
  record (Action.updateAll dt) { app with ext := env.updateAll dt app.ext }

/-- The function `Application::render`. -/
def render (env : Env σ) (app : App σ) : App σ :=
  let app := record Action.clear app
  let app := record Action.setView app
  let app := emit env Event.render app
  let app := record Action.draw app
  let app := record Action.drawStatistics app
  record Action.display app

/-- The function `Application::updateStatistics`. -/
def updateStatistics (env : Env σ) (dt : Int) (app : App σ) : App σ :=
  let app := record (Action.updateStatistics dt) app
  let t := app.statisticsUpdateTime + dt
  let n := app.statisticsNumFrames + 1
  if t ≥ env.oneSecond then
    { app with
      statisticsText := some (n, env.divide (env.milliseconds t) n)
      statisticsNumFrames := 0
      statisticsUpdateTime := t - env.oneSecond }
  else
    { app with statisticsUpdateTime := t, statisticsNumFrames := n }

/-- What the outside world does between two polls: the operating system queues
the raw events of this tick and the joystick takes its position. -/
def arrive (env : Env σ) (app : App σ) : App σ :=
  { app with
    queue := app.queue ++ env.arrivals app.ticks
    joystickX := env.axisX app.ticks }

/-- Body of the inner loop of `run` after `timeSinceLastUpdate -= timePerFrame`. -/
def tick (env : Env σ) (app : App σ) : App σ :=
  let app := emit env Event.beforeGameTick app
  let app := processEvents env (arrive env app)
  let app := update env env.timePerFrame app
  let app := emit env Event.afterGameTick app
  let app := if env.isEmpty app.ext then closeWindow app else app
  { app with ticks := app.ticks + 1 }

/-- The inner loop `while (timeSinceLastUpdate >= timePerFrame)` of `run`; the
second component is `timeSinceLastUpdate`. `none` means the loop did not end
within `fuel` rounds. -/
def fixedUpdate (env : Env σ) : Nat → App σ → Int → Option (App σ × Int)
  | 0, _, _ => none
  | fuel + 1, app, acc =>
    if acc ≥ env.timePerFrame then
      fixedUpdate env fuel (tick env app) (acc - env.timePerFrame)
    else some (app, acc)

/-- The outer loop `while (mWindow->isOpen())` of `run`, observed for as many
rounds as there are clock samples; the head of the list is the value of
`clock.restart()` in the next round. -/
def mainLoop (env : Env σ) (fuel : Nat) : App σ → Int → List Int → Option (App σ × Int)
  | app, acc, [] => some (app, acc)
  | app, acc, elapsedTime :: rest =>
    if app.isOpen then
      match fixedUpdate env fuel { app with frames := app.frames + 1 } (acc + elapsedTime) with
      | none => none
      | some (app1, acc1) =>
        mainLoop env fuel (render env (updateStatistics env elapsedTime app1)) acc1 rest
    else some (app, acc)

/-- The function `Application::run`: `timeSinceLastUpdate` starts at `Time::Zero`. -/
def run (env : Env σ) (fuel : Nat) (app : App σ) (samples : List Int) : Option (App σ × Int) :=
  mainLoop env fuel app 0 samples

/-- A test environment over the external state `List Nat` (the live state stack,
top last): every `updateAll` removes the top state. -/
def popEnv (tpf : Int) (arrivals : Nat → List RawEvent) (axisX : Nat → ℚ) : Env (List Nat) where
  timePerFrame := tpf
  oneSecond := 60 * tpf
  milliseconds := fun t => t
  divide := fun a n => Int.tdiv a n
  handlers := fun _ s => s
  updateAll := fun _ s => s.dropLast
  isEmpty := fun s => s.isEmpty
  arrivals := arrivals
  axisX := axisX

/-- A freshly constructed application with an open window. -/
def freshApp (s : σ) : App σ where
  isOpen := true
  queue := []
  joystickX := 0
  ext := s
  statisticsUpdateTime := 0
  statisticsNumFrames := 0
  statisticsText := none
  ticks := 0
  frames := 0
  trace := []

/-! ## Vocabulary of the statements -/

/-- Action the spec attaches to one raw event: a key press and a joystick button
press are re-emitted with the same payload, `Closed` closes the window, every
other kind produces nothing. -/
def specTranslation : RawEvent → Option Action
  | RawEvent.closed => some Action.closeWindow
  | RawEvent.keyPressed c => some (Action.emit (Event.keyPressed c))
  | RawEvent.joystickButtonPressed b => some (Action.emit (Event.joystickButtonPressed b))
  | RawEvent.joystickMoved _ _ _ => none
  | RawEvent.other _ => none

/-- Deadband rule of the spec: one analog event carrying `v` when `|v| > 45`,
nothing otherwise. -/
def specAnalog (v : ℚ) : List Action :=
  if |v| > 45 then [Action.emit (Event.joystickXAnalog v)] else []

/-- Effect on the external state of the handlers run for one raw event. -/
def inputEffect (env : Env σ) (s : σ) : RawEvent → σ
  | RawEvent.keyPressed c => env.handlers (Event.keyPressed c) s
  | RawEvent.joystickButtonPressed b => env.handlers (Event.joystickButtonPressed b) s
  | _ => s

/-- Recognises a `JoystickXAnalogEvent` emission. -/
def Action.isAnalog : Action → Bool
  | Action.emit (Event.joystickXAnalog _) => true
  | _ => false

/-- Recognises the five steps of a fixed tick. -/
def Action.isTickStep : Action → Bool
  | Action.emit Event.beforeGameTick => true
  | Action.processEvents => true
  | Action.emit (Event.gameTick _) => true
  | Action.updateAll _ => true
  | Action.emit Event.afterGameTick => true
  | _ => false

/-- Recognises the steps of `updateStatistics` followed by `render`. -/
def Action.isRenderStep : Action → Bool
  | Action.updateStatistics _ => true
  | Action.clear => true
  | Action.setView => true
  | Action.emit Event.render => true
  | Action.draw => true
  | Action.drawStatistics => true
  | Action.display => true
  | _ => false

/-- The five steps of one fixed tick with tick duration `dt`. -/
def tickSteps (dt : Int) : List Action :=
  [Action.emit Event.beforeGameTick, Action.processEvents, Action.emit (Event.gameTick dt),
   Action.updateAll dt, Action.emit Event.afterGameTick]

/-- The steps of one render pass after a clock sample `elapsedTime`. -/
def renderSteps (elapsedTime : Int) : List Action :=
  [Action.updateStatistics elapsedTime, Action.clear, Action.setView, Action.emit Event.render,
   Action.draw, Action.drawStatistics, Action.display]

/-- Events one poll loop takes from a queue on an open window: all of them up to and
including the first `Closed`. -/
def uptoClosed : List RawEvent → List RawEvent
  | [] => []
  | RawEvent.closed :: _ => [RawEvent.closed]
  | RawEvent.keyPressed c :: q => RawEvent.keyPressed c :: uptoClosed q
  | RawEvent.joystickButtonPressed b :: q => RawEvent.joystickButtonPressed b :: uptoClosed q
  | RawEvent.joystickMoved i a v :: q => RawEvent.joystickMoved i a v :: uptoClosed q
  | RawEvent.other k :: q => RawEvent.other k :: uptoClosed q

/-- Events one poll loop takes from the queue `q`: none when the window is closed. -/
def pollable (isOpen : Bool) (q : List RawEvent) : List RawEvent :=
  if isOpen then uptoClosed q else []

/-- Raw events polled by the tick that starts in `app`. -/
def polled (env : Env σ) (app : App σ) : List RawEvent :=
  pollable app.isOpen (app.queue ++ env.arrivals app.ticks)

/-- External state after the input translation of the tick that starts in `app`. -/
def inputExt (env : Env σ) (app : App σ) : σ :=
  if |env.axisX app.ticks| > 45 then
    env.handlers (Event.joystickXAnalog (env.axisX app.ticks))
      ((polled env app).foldl (inputEffect env) (env.handlers Event.beforeGameTick app.ext))
  else (polled env app).foldl (inputEffect env) (env.handlers Event.beforeGameTick app.ext)

/-- External state at the end of the tick that starts in `app`: the handlers and
systems have run in program order, and nothing else has touched it. -/
def tickExt (env : Env σ) (app : App σ) : σ :=
  env.handlers Event.afterGameTick
    (env.updateAll env.timePerFrame
      (env.handlers (Event.gameTick env.timePerFrame) (inputExt env app)))

/-- Calls recorded by the tick that starts in `app`. -/
def tickActions (env : Env σ) (app : App σ) : List Action :=
  [Action.emit Event.beforeGameTick, Action.processEvents]
    ++ (polled env app).filterMap specTranslation
    ++ specAnalog (env.axisX app.ticks)
    ++ [Action.emit (Event.gameTick env.timePerFrame), Action.updateAll env.timePerFrame,
        Action.emit Event.afterGameTick]
    ++ (if env.isEmpty (tickExt env app) then [Action.closeWindow] else [])

/-- Number of rounds the inner loop makes from the accumulator value `acc`. -/
def rounds (env : Env σ) (acc : Int) : Nat :=
  (acc / env.timePerFrame).toNat

/-- Largest clock sample of a list (or `0`). -/
def maxSample (samples : List Int) : Int :=
  samples.foldr max 0

/-! ## The state stack of the spec -/

/-- Modelled from the spec: a requested state-stack operation (the state stack is
not part of `Application.cpp`); states are named by numbers. -/
inductive PendingChange
  | push (state : Nat)
  | pop
  | clear
  deriving DecidableEq

/-- Modelled from the spec: the state stack of section 4.4, a live stack (top
last) and the queue of pending requests, oldest first. -/
structure StateStack where
  live : List Nat
  pending : List PendingChange
  deriving DecidableEq

/-- Modelled from the spec: `push<S>()` enqueues a request and does not touch the
live stack. -/
def StateStack.push (state : Nat) (st : StateStack) : StateStack :=
  { st with pending := st.pending ++ [PendingChange.push state] }

/-- Modelled from the spec: `pop()` enqueues a request and does not touch the live
stack. -/
def StateStack.pop (st : StateStack) : StateStack :=
  { st with pending := st.pending ++ [PendingChange.pop] }

/-- Modelled from the spec: `clear()` enqueues a request and does not touch the
live stack. -/
def StateStack.clear (st : StateStack) : StateStack :=
  { st with pending := st.pending ++ [PendingChange.clear] }

/-- Modelled from the spec: effect of one pending request on the live stack. -/
def StateStack.applyChange (live : List Nat) : PendingChange → List Nat
  | PendingChange.push state => live ++ [state]
  | PendingChange.pop => live.dropLast
  | PendingChange.clear => []

/-- Modelled from the spec: `forcePendingChanges()` flushes the pending queue into
the live stack, in request order. -/
def StateStack.forcePendingChanges (st : StateStack) : StateStack :=
  { live := st.pending.foldl StateStack.applyChange st.live, pending := [] }

/-- Modelled from the spec: `isEmpty()` is true when the live stack has no state. -/
def StateStack.isEmpty (st : StateStack) : Bool :=
  st.live.isEmpty

/-- Modelled from the spec: an environment over the spec's state stack. On the tick
event the state on top makes a request: state `1` requests `push` of state `2`,
state `2` requests `clear`; nothing else makes a request. The state stack is
subscribed to the after-tick event and flushes its pending queue there:
`Application.cpp` holds no flush call in its loop, and section 4.4 has the
pending changes flushed once per tick after event emission and subsystem
updates. -/
def flushingEnv : Env StateStack where
  timePerFrame := 10
  oneSecond := 600
  milliseconds := fun t => t
  divide := fun a n => Int.tdiv a n
  handlers := fun e st =>
    match e with
    | Event.gameTick _ =>
      if st.live.getLast? = some 1 then st.push 2
      else if st.live.getLast? = some 2 then st.clear
      else st
    | Event.afterGameTick => st.forcePendingChanges
    | _ => st
  updateAll := fun _ st => st
  isEmpty := StateStack.isEmpty
  arrivals := fun _ => []
  axisX := fun _ => 0

/-! ## Concrete environments -/

/-- A quiet environment with a tick of 16666 clock units: no input, and each
`updateAll` removes the top state. -/
def demoEnv : Env (List Nat) :=
  popEnv 16666 (fun _ => []) (fun _ => 0)

/-- An application whose state stack holds three states. -/
def demoApp : App (List Nat) :=
  freshApp [1, 2, 3]

/-- An environment in which the first poll finds a key press and a `Closed` event
and the joystick is held at 50. -/
def closingEnv : Env (List Nat) :=
  popEnv 10 (fun n => if n = 0 then [RawEvent.keyPressed 7, RawEvent.closed] else [])
    (fun _ => 50)

/-- State of `demoApp` when the first round of the outer loop has started. -/
def demoStart : App (List Nat) :=
  { demoApp with frames := demoApp.frames + 1 }

/-- A quiet environment with a tick of 10 clock units in which each `updateAll`
removes the top state. -/
def emptyingEnv : Env (List Nat) :=
  popEnv 10 (fun _ => []) (fun _ => 0)

/-- An application whose state stack holds one state. -/
def lastStateApp : App (List Nat) :=
  freshApp [1]

/-- State of `lastStateApp` when the first round of the outer loop has started. -/
def lastStateStart : App (List Nat) :=
  { lastStateApp with frames := lastStateApp.frames + 1 }

/-! ## Input translation -/

theorem pollLoop_eq (env : Env σ) (q : List RawEvent) (app : App σ) :
    pollLoop env q app =
      { app with
        queue := q.drop (pollable app.isOpen q).length
        isOpen := app.isOpen && !(pollable app.isOpen q).contains RawEvent.closed
        ext := (pollable app.isOpen q).foldl (inputEffect env) app.ext
        trace := app.trace ++ (pollable app.isOpen q).filterMap specTranslation } := by
  induction q generalizing app with
  | nil => cases h : app.isOpen <;> simp [pollLoop, pollable, uptoClosed, h]
  | cons e q ih =>
    obtain ⟨o, qq, j, ex, a, b, c, d, f, t⟩ := app
    cases o
    · simp [pollLoop, pollable]
    · cases e <;>
        simp [pollLoop, ih, translate, closeWindow, emit, record, inputEffect, specTranslation,
          pollable, uptoClosed]

theorem analog_iff (v : ℚ) : (v > 45 ∨ v < -45) ↔ |v| > 45 := by
  show (45 < v ∨ v < -45) ↔ 45 < |v|
  rw [lt_abs]
  constructor
  · rintro (h | h)
    · exact Or.inl h
    · exact Or.inr (by linarith)
  · rintro (h | h)
    · exact Or.inl h
    · exact Or.inr (by linarith)

theorem processEvents_eq (env : Env σ) (app : App σ) :
    processEvents env app =
      { app with
        queue := app.queue.drop (pollable app.isOpen app.queue).length
        isOpen := app.isOpen && !(pollable app.isOpen app.queue).contains RawEvent.closed
        ext := if |app.joystickX| > 45 then
            env.handlers (Event.joystickXAnalog app.joystickX)
              ((pollable app.isOpen app.queue).foldl (inputEffect env) app.ext)
          else (pollable app.isOpen app.queue).foldl (inputEffect env) app.ext
        trace := app.trace ++ [Action.processEvents]
          ++ (pollable app.isOpen app.queue).filterMap specTranslation
          ++ specAnalog app.joystickX } := by
  unfold processEvents
  simp only [pollLoop_eq, record, specAnalog]
  by_cases h : |app.joystickX| > 45
  · have h2 := (analog_iff app.joystickX).mpr h
    simp [h, h2, emit, record]
  · have h2 : ¬ (app.joystickX > 45 ∨ app.joystickX < -45) := fun hh => h ((analog_iff _).mp hh)
    simp [h, h2]

/-! ## One fixed tick -/

theorem tick_eq (env : Env σ) (app : App σ) :
    tick env app =
      { app with
        queue := (app.queue ++ env.arrivals app.ticks).drop (polled env app).length
        joystickX := env.axisX app.ticks
        isOpen := app.isOpen && !(polled env app).contains RawEvent.closed
          && !env.isEmpty (tickExt env app)
        ext := tickExt env app
        trace := app.trace ++ tickActions env app
        ticks := app.ticks + 1 } := by
  unfold tick
  simp only [processEvents_eq, emit, record, arrive, update, closeWindow]
  by_cases hv : |env.axisX app.ticks| > 45 <;>
  by_cases he : env.isEmpty (tickExt env app) = true <;>
  simp [hv, he, tickExt, inputExt, tickActions, polled] at * <;>
  simp [hv, he]

theorem tick_trace (env : Env σ) (app : App σ) :
    (tick env app).trace = app.trace ++ tickActions env app := by
  rw [tick_eq]

theorem tick_ticks (env : Env σ) (app : App σ) : (tick env app).ticks = app.ticks + 1 := by
  rw [tick_eq]

theorem tick_frames (env : Env σ) (app : App σ) : (tick env app).frames = app.frames := by
  rw [tick_eq]

theorem tick_ext (env : Env σ) (app : App σ) : (tick env app).ext = tickExt env app := by
  rw [tick_eq]

theorem tick_isOpen (env : Env σ) (app : App σ) :
    (tick env app).isOpen = (app.isOpen && !(polled env app).contains RawEvent.closed
      && !env.isEmpty (tickExt env app)) := by
  rw [tick_eq]

theorem filter_specTranslation_tickStep (q : List RawEvent) :
    (q.filterMap specTranslation).filter Action.isTickStep = [] := by
  induction q with
  | nil => rfl
  | cons e q ih =>
    cases e <;>
      simp only [List.filterMap_cons, specTranslation, List.filter_cons, Action.isTickStep] <;>
      exact ih

theorem filter_specTranslation_renderStep (q : List RawEvent) :
    (q.filterMap specTranslation).filter Action.isRenderStep = [] := by
  induction q with
  | nil => rfl
  | cons e q ih =>
    cases e <;>
      simp only [List.filterMap_cons, specTranslation, List.filter_cons, Action.isRenderStep] <;>
      exact ih

theorem tickActions_tickSteps (env : Env σ) (app : App σ) :
    (tickActions env app).filter Action.isTickStep = tickSteps env.timePerFrame := by
  unfold tickActions specAnalog
  split_ifs <;>
    simp [List.filter_append, filter_specTranslation_tickStep, Action.isTickStep, tickSteps]

theorem tickActions_renderSteps (env : Env σ) (app : App σ) :
    (tickActions env app).filter Action.isRenderStep = [] := by
  unfold tickActions specAnalog
  split_ifs <;>
    simp [List.filter_append, filter_specTranslation_renderStep, Action.isRenderStep]

theorem render_updateStatistics_eq_trace (env : Env σ) (s : Int) (app : App σ) :
    (render env (updateStatistics env s app)).trace = app.trace ++ renderSteps s := by
  unfold render updateStatistics
  simp only [emit, record]
  split_ifs <;> simp [renderSteps]

theorem render_updateStatistics_fields (env : Env σ) (s : Int) (app : App σ) :
    (render env (updateStatistics env s app)).isOpen = app.isOpen
    ∧ (render env (updateStatistics env s app)).ticks = app.ticks
    ∧ (render env (updateStatistics env s app)).frames = app.frames
    ∧ (render env (updateStatistics env s app)).queue = app.queue
    ∧ (render env (updateStatistics env s app)).ext = env.handlers Event.render app.ext := by
  unfold render updateStatistics
  simp only [emit, record]
  split_ifs <;> simp

/-! ## The two loops of `run` -/

theorem rounds_of_lt (env : Env σ) (h : 0 < env.timePerFrame) (acc : Int)
    (hacc : acc < env.timePerFrame) : rounds env acc = 0 := by
  unfold rounds
  have h1 : acc / env.timePerFrame < 1 := Int.ediv_lt_of_lt_mul h (by simpa using hacc)
  omega

theorem rounds_of_ge (env : Env σ) (h : 0 < env.timePerFrame) (acc : Int)
    (hacc : env.timePerFrame ≤ acc) :
    rounds env acc = rounds env (acc - env.timePerFrame) + 1 := by
  unfold rounds
  have h0 : 0 ≤ (acc - env.timePerFrame) / env.timePerFrame :=
    Int.ediv_nonneg (by omega) (le_of_lt h)
  have h1 : acc / env.timePerFrame = (acc - env.timePerFrame) / env.timePerFrame + 1 := by
    have := Int.add_mul_ediv_right (acc - env.timePerFrame) 1 (ne_of_gt h)
    simpa using this
  omega

theorem rounds_mono (env : Env σ) (h : 0 < env.timePerFrame) {a b : Int} (hab : a ≤ b) :
    rounds env a ≤ rounds env b := by
  unfold rounds
  exact Int.toNat_le_toNat (Int.ediv_le_ediv h hab)

theorem fixedUpdate_eq (env : Env σ) (h : 0 < env.timePerFrame) :
    ∀ (fuel : Nat) (app : App σ) (acc : Int),
      fixedUpdate env fuel app acc =
        if rounds env acc < fuel then
          some ((tick env)^[rounds env acc] app, acc - (rounds env acc : Int) * env.timePerFrame)
        else none := by
  intro fuel
  induction fuel with
  | zero => intro app acc; simp [fixedUpdate]
  | succ fuel ih =>
    intro app acc
    unfold fixedUpdate
    by_cases hge : acc ≥ env.timePerFrame
    · rw [if_pos hge, ih, rounds_of_ge env h acc hge]
      by_cases hf : rounds env (acc - env.timePerFrame) < fuel
      · rw [if_pos hf, if_pos (by omega)]
        simp only [Function.iterate_succ_apply, Option.some.injEq, Prod.mk.injEq, true_and]
        push_cast
        ring
      · rw [if_neg hf, if_neg (by omega)]
    · rw [if_neg hge, rounds_of_lt env h acc (by omega)]
      simp

theorem fixedUpdate_exit (env : Env σ) :
    ∀ (fuel : Nat) (app : App σ) (acc : Int) (r : App σ × Int),
      fixedUpdate env fuel app acc = some r → r.2 < env.timePerFrame := by
  intro fuel
  induction fuel with
  | zero => intro app acc r hr; simp [fixedUpdate] at hr
  | succ fuel ih =>
    intro app acc r hr
    unfold fixedUpdate at hr
    by_cases hge : acc ≥ env.timePerFrame
    · rw [if_pos hge] at hr
      exact ih _ _ _ hr
    · rw [if_neg hge] at hr
      cases hr
      simpa using hge

theorem iterate_tick_ticks (env : Env σ) (n : Nat) (app : App σ) :
    ((tick env)^[n] app).ticks = app.ticks + n := by
  induction n generalizing app with
  | zero => rfl
  | succ n ih => rw [Function.iterate_succ_apply, ih, tick_ticks]; omega

theorem iterate_tick_frames (env : Env σ) (n : Nat) (app : App σ) :
    ((tick env)^[n] app).frames = app.frames := by
  induction n generalizing app with
  | zero => rfl
  | succ n ih => rw [Function.iterate_succ_apply, ih, tick_frames]

theorem iterate_tick_of_closed (env : Env σ) (n : Nat) (app : App σ)
    (hclosed : app.isOpen = false) : ((tick env)^[n] app).isOpen = false := by
  induction n generalizing app with
  | zero => exact hclosed
  | succ n ih =>
    rw [Function.iterate_succ_apply]
    apply ih
    rw [tick_isOpen, hclosed]
    rfl

theorem iterate_tick_invariant (env : Env σ) (Q : App σ → Prop)
    (htick : ∀ app, Q app → Q (tick env app)) (n : Nat) (app : App σ) (h : Q app) :
    Q ((tick env)^[n] app) := by
  induction n generalizing app with
  | zero => exact h
  | succ n ih => rw [Function.iterate_succ_apply]; exact ih _ (htick _ h)

theorem fixedUpdate_invariant (env : Env σ) (Q : App σ → Prop)
    (htick : ∀ app, Q app → Q (tick env app)) :
    ∀ (fuel : Nat) (app : App σ) (acc : Int) (r : App σ × Int),
      Q app → fixedUpdate env fuel app acc = some r → Q r.1 := by
  intro fuel
  induction fuel with
  | zero => intro app acc r _ hr; simp [fixedUpdate] at hr
  | succ fuel ih =>
    intro app acc r hq hr
    unfold fixedUpdate at hr
    by_cases hge : acc ≥ env.timePerFrame
    · rw [if_pos hge] at hr
      exact ih _ _ _ (htick _ hq) hr
    · rw [if_neg hge] at hr
      cases hr
      exact hq

theorem mainLoop_invariant (env : Env σ) (fuel : Nat) (R Q : App σ → Prop)
    (hstart : ∀ app, R app → app.isOpen = true → Q { app with frames := app.frames + 1 })
    (htick : ∀ app, Q app → Q (tick env app))
    (hrender : ∀ app s, Q app → R (render env (updateStatistics env s app))) :
    ∀ (samples : List Int) (app : App σ) (acc : Int) (r : App σ × Int),
      R app → mainLoop env fuel app acc samples = some r → R r.1 := by
  intro samples
  induction samples with
  | nil =>
    intro app acc r hR hr
    simp [mainLoop] at hr
    cases hr
    exact hR
  | cons s rest ih =>
    intro app acc r hR hr
    unfold mainLoop at hr
    by_cases ho : app.isOpen = true
    · rw [if_pos ho] at hr
      cases hfu : fixedUpdate env fuel { app with frames := app.frames + 1 } (acc + s) with
      | none => rw [hfu] at hr; simp at hr
      | some p =>
        rw [hfu] at hr
        obtain ⟨app1, acc1⟩ := p
        have hq : Q app1 := fixedUpdate_invariant env Q htick _ _ _ _ (hstart _ hR ho) hfu
        exact ih _ _ _ (hrender _ s hq) hr
    · rw [if_neg ho] at hr
      cases hr
      exact hR

theorem le_maxSample (samples : List Int) : ∀ s ∈ samples, s ≤ maxSample samples := by
  induction samples with
  | nil => intro s hs; simp at hs
  | cons a rest ih =>
    intro s hs
    simp only [maxSample, List.foldr_cons]
    rcases List.mem_cons.mp hs with h | h
    · subst h; exact le_max_left _ _
    · exact le_trans (ih s h) (le_max_right _ _)

theorem mainLoop_total (env : Env σ) (h : 0 < env.timePerFrame) (B : Int) (fuel : Nat)
    (hfuel : rounds env (env.timePerFrame + B) < fuel) :
    ∀ (samples : List Int) (app : App σ) (acc : Int),
      acc < env.timePerFrame → (∀ s ∈ samples, s ≤ B) →
      ∃ r, mainLoop env fuel app acc samples = some r := by
  intro samples
  induction samples with
  | nil => intro app acc _ _; exact ⟨_, rfl⟩
  | cons s rest ih =>
    intro app acc hacc hB
    unfold mainLoop
    by_cases ho : app.isOpen = true
    · rw [if_pos ho]
      have hs : s ≤ B := hB s (List.mem_cons_self _ _)
      have hr : rounds env (acc + s) < fuel :=
        lt_of_le_of_lt (rounds_mono env h (by omega)) hfuel
      have hfu := fixedUpdate_eq env h fuel { app with frames := app.frames + 1 } (acc + s)
      rw [if_pos hr] at hfu
      rw [hfu]
      have hexit := fixedUpdate_exit env _ _ _ _ hfu
      exact ih _ _ hexit (fun x hx => hB x (List.mem_cons_of_mem _ hx))
    · rw [if_neg ho]
      exact ⟨_, rfl⟩

theorem run_total (env : Env σ) (h : 0 < env.timePerFrame) (app : App σ) (samples : List Int) :
    ∃ fuel r, run env fuel app samples = some r :=
  ⟨rounds env (env.timePerFrame + maxSample samples) + 1,
    mainLoop_total env h (maxSample samples) _ (Nat.lt_succ_self _) samples app 0 h
      (le_maxSample samples)⟩

/-! ## Time accounting -/

theorem fixedUpdate_nonneg (env : Env σ) (h : 0 < env.timePerFrame) (fuel : Nat) (app : App σ)
    (acc : Int) (hacc : 0 ≤ acc) (r : App σ × Int) (hr : fixedUpdate env fuel app acc = some r) :
    r.1 = (tick env)^[rounds env acc] app ∧ (rounds env acc : Int) = acc / env.timePerFrame
      ∧ r.2 = acc % env.timePerFrame := by
  rw [fixedUpdate_eq env h] at hr
  split_ifs at hr
  cases hr
  have hq : 0 ≤ acc / env.timePerFrame := Int.ediv_nonneg hacc (le_of_lt h)
  have hn : (rounds env acc : Int) = acc / env.timePerFrame := by
    unfold rounds
    exact Int.toNat_of_nonneg hq
  refine ⟨rfl, hn, ?_⟩
  show acc - (rounds env acc : Int) * env.timePerFrame = acc % env.timePerFrame
  rw [hn, Int.emod_def]
  ring

theorem mainLoop_time (env : Env σ) (h : 0 < env.timePerFrame) (fuel : Nat) :
    ∀ (samples : List Int) (app : App σ) (acc : Int) (r : App σ × Int),
      0 ≤ acc → acc < env.timePerFrame → (∀ s ∈ samples, 0 ≤ s) →
      mainLoop env fuel app acc samples = some r →
      app.frames ≤ r.1.frames ∧ r.1.frames - app.frames ≤ samples.length
      ∧ app.ticks ≤ r.1.ticks ∧ 0 ≤ r.2 ∧ r.2 < env.timePerFrame
      ∧ r.2 + ((r.1.ticks - app.ticks : Nat) : Int) * env.timePerFrame
          = acc + (samples.take (r.1.frames - app.frames)).sum
      ∧ (r.1.isOpen = true → r.1.frames - app.frames = samples.length) := by
  intro samples
  induction samples with
  | nil =>
    intro app acc r h0 h1 _ hr
    simp [mainLoop] at hr
    cases hr
    simp [h0, h1]
  | cons s rest ih =>
    intro app acc r h0 h1 hs hr
    unfold mainLoop at hr
    by_cases ho : app.isOpen = true
    · rw [if_pos ho] at hr
      have hs0 : 0 ≤ s := hs s (List.mem_cons_self _ _)
      cases hfu : fixedUpdate env fuel { app with frames := app.frames + 1 } (acc + s) with
      | none => rw [hfu] at hr; simp at hr
      | some p =>
        rw [hfu] at hr
        obtain ⟨app1, acc1⟩ := p
        obtain ⟨e1, e2, e3⟩ := fixedUpdate_nonneg env h fuel _ (acc + s) (by omega) _ hfu
        simp only at e1 e3 hr
        have hacc1 : 0 ≤ acc1 := by rw [e3]; exact Int.emod_nonneg _ (ne_of_gt h)
        have hacc1lt : acc1 < env.timePerFrame := by rw [e3]; exact Int.emod_lt_of_pos _ h
        have hdecomp : acc1 + (rounds env (acc + s) : Int) * env.timePerFrame = acc + s := by
          rw [e3, e2, mul_comm]
          exact Int.emod_add_ediv _ _
        obtain ⟨f1, f2, f3, f4, f5⟩ := render_updateStatistics_fields env s app1
        have ht1 : app1.ticks = app.ticks + rounds env (acc + s) := by
          rw [e1, iterate_tick_ticks]
        have hf1 : app1.frames = app.frames + 1 := by
          rw [e1, iterate_tick_frames]
        obtain ⟨g1, g2, g3, g4, g5, g6, g7⟩ :=
          ih _ _ r hacc1 hacc1lt (fun x hx => hs x (List.mem_cons_of_mem _ hx)) hr
        rw [f2, ht1] at g3
        rw [f3, hf1] at g1 g2 g7
        rw [f2, f3, ht1, hf1] at g6
        have hk : r.1.frames - app.frames = (r.1.frames - (app.frames + 1)) + 1 := by omega
        have hn : r.1.ticks - app.ticks
            = (r.1.ticks - (app.ticks + rounds env (acc + s))) + rounds env (acc + s) := by omega
        refine ⟨by omega, ?_, by omega, g4, g5, ?_, ?_⟩
        · simp only [List.length_cons]; omega
        · rw [hk, List.take_succ_cons, List.sum_cons, hn]
          push_cast
          linarith
        · intro hopen
          have := g7 hopen
          simp only [List.length_cons]
          omega
    · rw [if_neg ho] at hr
      cases hr
      simp only [le_refl, Nat.sub_self, Nat.zero_le, List.take_zero, List.sum_nil, true_and]
      refine ⟨h0, h1, by simp, fun hopen => absurd hopen ho⟩

/-- Claim C1: for every finite list of non-negative clock samples and a positive
`timePerFrame`, `run` returns (given enough fuel), and whenever it returns, the
number of fixed ticks drained equals the floor of the elapsed time of the rounds
it made divided by `timePerFrame`, and the final accumulator is that elapsed
time modulo `timePerFrame`; all samples are consumed when the window is still
open at the end. -/
theorem run_drains_floor (env : Env σ) (app : App σ) (samples : List Int)
    (h : 0 < env.timePerFrame) (hs : ∀ s ∈ samples, 0 ≤ s) :
    (∃ fuel r, run env fuel app samples = some r) ∧
    ∀ fuel r, run env fuel app samples = some r →
      r.1.frames - app.frames ≤ samples.length
      ∧ (r.1.isOpen = true → r.1.frames - app.frames = samples.length)
      ∧ ((r.1.ticks - app.ticks : Nat) : Int)
          = (samples.take (r.1.frames - app.frames)).sum / env.timePerFrame
      ∧ r.2 = (samples.take (r.1.frames - app.frames)).sum % env.timePerFrame := by
  refine ⟨run_total env h app samples, ?_⟩
  intro fuel r hr
  obtain ⟨_, g2, _, g4, g5, g6, g7⟩ :=
    mainLoop_time env h fuel samples app 0 r (le_refl 0) h hs hr
  refine ⟨g2, g7, ?_⟩
  have huniq := (Int.ediv_emod_unique h
    (a := (samples.take (r.1.frames - app.frames)).sum)
    (r := r.2) (q := ((r.1.ticks - app.ticks : Nat) : Int))).mpr
    ⟨by rw [mul_comm]; simpa using g6, g4, g5⟩
  exact ⟨huniq.1.symm, huniq.2.symm⟩

/-- Claim C2: from a non-negative accumulator and a non-negative clock sample, the
inner loop of `run` ends (given enough fuel), and when it has ended the
accumulator is at least zero and strictly below `timePerFrame`. -/
theorem accumulator_invariant (env : Env σ) (app : App σ) (acc elapsedTime : Int)
    (h : 0 < env.timePerFrame) (hacc : 0 ≤ acc) (hs : 0 ≤ elapsedTime) :
    (∃ fuel r, fixedUpdate env fuel app (acc + elapsedTime) = some r) ∧
    ∀ fuel r, fixedUpdate env fuel app (acc + elapsedTime) = some r →
      0 ≤ r.2 ∧ r.2 < env.timePerFrame := by
  constructor
  · refine ⟨rounds env (acc + elapsedTime) + 1, ?_⟩
    rw [fixedUpdate_eq env h, if_pos (Nat.lt_succ_self _)]
    exact ⟨_, rfl⟩
  · intro fuel r hr
    obtain ⟨_, _, e3⟩ := fixedUpdate_nonneg env h fuel app _ (by omega) r hr
    rw [e3]
    exact ⟨Int.emod_nonneg _ (ne_of_gt h), Int.emod_lt_of_pos _ h⟩

/-! ## Shape of the trace -/

theorem renderSteps_tickSteps (s : Int) : (renderSteps s).filter Action.isTickStep = [] := by
  simp [renderSteps, Action.isTickStep]

theorem renderSteps_renderSteps (s : Int) :
    (renderSteps s).filter Action.isRenderStep = renderSteps s := by
  simp [renderSteps, Action.isRenderStep]

theorem mainLoop_renderSteps (env : Env σ) (fuel : Nat) :
    ∀ (samples : List Int) (app : App σ) (acc : Int) (r : App σ × Int),
      mainLoop env fuel app acc samples = some r →
      app.frames ≤ r.1.frames ∧ r.1.frames - app.frames ≤ samples.length
      ∧ r.1.trace.filter Action.isRenderStep
          = app.trace.filter Action.isRenderStep
            ++ ((samples.take (r.1.frames - app.frames)).map renderSteps).flatten := by
  intro samples
  induction samples with
  | nil =>
    intro app acc r hr
    simp [mainLoop] at hr
    cases hr
    simp
  | cons s rest ih =>
    intro app acc r hr
    unfold mainLoop at hr
    by_cases ho : app.isOpen = true
    · rw [if_pos ho] at hr
      cases hfu : fixedUpdate env fuel { app with frames := app.frames + 1 } (acc + s) with
      | none => rw [hfu] at hr; simp at hr
      | some p =>
        rw [hfu] at hr
        obtain ⟨app1, acc1⟩ := p
        have hq := fixedUpdate_invariant env
          (fun a => a.frames = app.frames + 1
            ∧ a.trace.filter Action.isRenderStep = app.trace.filter Action.isRenderStep)
          (fun a ha => by
            beta_reduce at ha ⊢
            rw [tick_frames, tick_trace, List.filter_append, tickActions_renderSteps]
            simpa using ha)
          fuel { app with frames := app.frames + 1 } (acc + s) (app1, acc1) ⟨rfl, rfl⟩ hfu
        obtain ⟨q1, q2⟩ := hq
        simp only at q1 q2 hr
        obtain ⟨_, _, f3, _, _⟩ := render_updateStatistics_fields env s app1
        obtain ⟨g1, g2, g3⟩ := ih _ _ r hr
        rw [f3, q1] at g1 g2 g3
        rw [render_updateStatistics_eq_trace, List.filter_append, q2,
          renderSteps_renderSteps] at g3
        have hk : r.1.frames - app.frames = (r.1.frames - (app.frames + 1)) + 1 := by omega
        refine ⟨by omega, ?_, ?_⟩
        · simp only [List.length_cons]; omega
        · rw [g3, hk, List.take_succ_cons, List.map_cons, List.flatten_cons, List.append_assoc]
    · rw [if_neg ho] at hr
      cases hr
      simp

/-- Claim C3: every round of the outer loop of `run` makes exactly one render pass
(`updateStatistics` followed by the steps of `render`) after its fixed ticks,
however many ticks it drained; over a run the render steps recorded are one
pass per round, in order. -/
theorem one_render_per_iteration (env : Env σ) (app : App σ) (samples : List Int)
    (h : 0 < env.timePerFrame) :
    (∀ (fuel : Nat) (x : App σ) (acc s : Int) (rest : List Int) (r : App σ × Int),
        x.isOpen = true → mainLoop env fuel x acc (s :: rest) = some r →
        ∃ x1 acc1,
          fixedUpdate env fuel { x with frames := x.frames + 1 } (acc + s) = some (x1, acc1)
          ∧ x1.trace.filter Action.isRenderStep = x.trace.filter Action.isRenderStep
          ∧ (render env (updateStatistics env s x1)).trace = x1.trace ++ renderSteps s
          ∧ mainLoop env fuel (render env (updateStatistics env s x1)) acc1 rest = some r)
    ∧ (∃ fuel r, run env fuel app samples = some r)
    ∧ ∀ fuel r, run env fuel app samples = some r →
        r.1.frames - app.frames ≤ samples.length
        ∧ r.1.trace.filter Action.isRenderStep
            = app.trace.filter Action.isRenderStep
              ++ ((samples.take (r.1.frames - app.frames)).map renderSteps).flatten := by
  refine ⟨?_, run_total env h app samples, ?_⟩
  · intro fuel x acc s rest r ho hr
    unfold mainLoop at hr
    rw [if_pos ho] at hr
    cases hfu : fixedUpdate env fuel { x with frames := x.frames + 1 } (acc + s) with
    | none => rw [hfu] at hr; simp at hr
    | some p =>
      rw [hfu] at hr
      obtain ⟨x1, acc1⟩ := p
      refine ⟨x1, acc1, rfl, ?_, render_updateStatistics_eq_trace env s x1, hr⟩
      exact fixedUpdate_invariant env
        (fun a => a.trace.filter Action.isRenderStep = x.trace.filter Action.isRenderStep)
        (fun a ha => by
          beta_reduce at ha ⊢
          rw [tick_trace, List.filter_append, tickActions_renderSteps]
          simpa using ha)
        fuel { x with frames := x.frames + 1 } (acc + s) (x1, acc1) rfl hfu
  · intro fuel r hr
    obtain ⟨_, g2, g3⟩ := mainLoop_renderSteps env fuel samples app 0 r hr
    exact ⟨g2, g3⟩

theorem mainLoop_tickSteps (env : Env σ) (fuel : Nat) (app : App σ) :
    ∀ (samples : List Int) (x : App σ) (acc : Int) (r : App σ × Int),
      (app.ticks ≤ x.ticks ∧ x.trace.filter Action.isTickStep
          = app.trace.filter Action.isTickStep
            ++ (List.replicate (x.ticks - app.ticks) (tickSteps env.timePerFrame)).flatten) →
      mainLoop env fuel x acc samples = some r →
      (app.ticks ≤ r.1.ticks ∧ r.1.trace.filter Action.isTickStep
          = app.trace.filter Action.isTickStep
            ++ (List.replicate (r.1.ticks - app.ticks) (tickSteps env.timePerFrame)).flatten) := by
  apply mainLoop_invariant env fuel
    (fun x => app.ticks ≤ x.ticks ∧ x.trace.filter Action.isTickStep
          = app.trace.filter Action.isTickStep
            ++ (List.replicate (x.ticks - app.ticks) (tickSteps env.timePerFrame)).flatten)
    (fun x => app.ticks ≤ x.ticks ∧ x.trace.filter Action.isTickStep
          = app.trace.filter Action.isTickStep
            ++ (List.replicate (x.ticks - app.ticks) (tickSteps env.timePerFrame)).flatten)
  · intro x hx _
    exact hx
  · intro x hx
    obtain ⟨h1, h2⟩ := hx
    have hk : x.ticks + 1 - app.ticks = (x.ticks - app.ticks) + 1 := by omega
    refine ⟨by rw [tick_ticks]; omega, ?_⟩
    rw [tick_trace, tick_ticks, List.filter_append, tickActions_tickSteps, h2, hk,
      List.replicate_succ', List.flatten_append, List.append_assoc]
    simp
  · intro x s hx
    obtain ⟨h1, h2⟩ := hx
    obtain ⟨_, f2, _, _, _⟩ := render_updateStatistics_fields env s x
    rw [f2, render_updateStatistics_eq_trace, List.filter_append, renderSteps_tickSteps]
    exact ⟨h1, by simpa using h2⟩

theorem mainLoop_blocks (env : Env σ) (fuel : Nat) (app : App σ) (samples : List Int)
    (r : App σ × Int) (hr : mainLoop env fuel app 0 samples = some r) :
    ∃ blocks : List (List Action), r.1.trace = app.trace ++ blocks.flatten
      ∧ ∀ b ∈ blocks, (∃ x, (tick env x).trace = x.trace ++ b) ∨ (∃ s, b = renderSteps s) := by
  let R : App σ → Prop := fun y =>
    ∃ blocks : List (List Action), y.trace = app.trace ++ blocks.flatten
      ∧ ∀ b ∈ blocks, (∃ x, (tick env x).trace = x.trace ++ b) ∨ (∃ s, b = renderSteps s)
  refine mainLoop_invariant env fuel R R ?_ ?_ ?_ samples app 0 r ⟨[], by simp⟩ hr
  · intro y hy _
    exact hy
  · intro y hy
    obtain ⟨blocks, h1, h2⟩ := hy
    refine ⟨blocks ++ [tickActions env y], ?_, ?_⟩
    · rw [tick_trace, h1]
      simp
    · intro b hb
      rcases List.mem_append.mp hb with hb | hb
      · exact h2 b hb
      · rw [List.mem_singleton] at hb
        exact Or.inl ⟨y, by rw [hb, tick_trace]⟩
  · intro y s hy
    obtain ⟨blocks, h1, h2⟩ := hy
    refine ⟨blocks ++ [renderSteps s], ?_, ?_⟩
    · rw [render_updateStatistics_eq_trace, h1]
      simp
    · intro b hb
      rcases List.mem_append.mp hb with hb | hb
      · exact h2 b hb
      · rw [List.mem_singleton] at hb
        exact Or.inr ⟨s, hb⟩

/-- Claim C4: a fixed tick records, in this order, the before-tick event, the call
of `processEvents` with the actions of the input translation, the tick event,
`updateAll` and the after-tick event (then only the possible `close`); and the
tick steps recorded by a run that drained `N` ticks are `N` copies of that
five-step sequence one after the other; the trace of a run is a sequence of
whole blocks, each the record of one tick or one render pass. -/
theorem tick_order (env : Env σ) (app : App σ) (samples : List Int)
    (h : 0 < env.timePerFrame) :
    (∀ x : App σ,
        (tick env x).trace
          = x.trace
            ++ [Action.emit Event.beforeGameTick, Action.processEvents]
            ++ ((polled env x).filterMap specTranslation ++ specAnalog (env.axisX x.ticks))
            ++ [Action.emit (Event.gameTick env.timePerFrame), Action.updateAll env.timePerFrame,
                Action.emit Event.afterGameTick]
            ++ (if env.isEmpty (tick env x).ext then [Action.closeWindow] else [])
        ∧ ((polled env x).filterMap specTranslation
            ++ specAnalog (env.axisX x.ticks)).filter Action.isTickStep = []
        ∧ (tick env x).ticks = x.ticks + 1)
    ∧ (∃ fuel r, run env fuel app samples = some r)
    ∧ ∀ fuel r, run env fuel app samples = some r →
        app.ticks ≤ r.1.ticks
        ∧ r.1.trace.filter Action.isTickStep
            = app.trace.filter Action.isTickStep
              ++ (List.replicate (r.1.ticks - app.ticks) (tickSteps env.timePerFrame)).flatten
        ∧ ∃ blocks : List (List Action), r.1.trace = app.trace ++ blocks.flatten
            ∧ ∀ b ∈ blocks,
                (∃ x, (tick env x).trace = x.trace ++ b) ∨ (∃ s, b = renderSteps s) := by
  refine ⟨?_, run_total env h app samples, ?_⟩
  · intro x
    refine ⟨?_, ?_, tick_ticks env x⟩
    · rw [tick_trace, tick_ext]
      simp [tickActions]
    · rw [List.filter_append, filter_specTranslation_tickStep]
      unfold specAnalog
      split_ifs <;> simp [Action.isTickStep]
  · intro fuel r hr
    obtain ⟨g1, g2⟩ := mainLoop_tickSteps env fuel app samples app 0 r ⟨le_refl _, by simp⟩ hr
    exact ⟨g1, g2, mainLoop_blocks env fuel app samples r hr⟩

theorem mem_tickActions_dt (env : Env σ) (x : App σ) (dt : Int)
    (hm : Action.emit (Event.gameTick dt) ∈ tickActions env x
      ∨ Action.updateAll dt ∈ tickActions env x) : dt = env.timePerFrame := by
  have key : ∀ a, a ∈ tickActions env x → a.isTickStep = true →
      a ∈ tickSteps env.timePerFrame := by
    intro a ha hs
    rw [← tickActions_tickSteps env x]
    exact List.mem_filter.mpr ⟨ha, hs⟩
  rcases hm with hm | hm
  · have := key _ hm rfl
    simpa [tickSteps] using this
  · have := key _ hm rfl
    simpa [tickSteps] using this

/-- Claim C6: every `GameTickEvent` emitted and every `updateAll` call made by `run`
carries exactly `timePerFrame`, whatever the clock samples and the accumulator
are. -/
theorem constant_dt (env : Env σ) (app : App σ) (samples : List Int)
    (h : 0 < env.timePerFrame) :
    (∃ fuel r, run env fuel app samples = some r)
    ∧ ∀ fuel r, run env fuel app samples = some r →
        ∃ added, r.1.trace = app.trace ++ added
          ∧ ∀ dt, (Action.emit (Event.gameTick dt) ∈ added ∨ Action.updateAll dt ∈ added) →
              dt = env.timePerFrame := by
  refine ⟨run_total env h app samples, ?_⟩
  intro fuel r hr
  let R : App σ → Prop := fun x =>
    ∃ added, x.trace = app.trace ++ added
      ∧ ∀ dt, (Action.emit (Event.gameTick dt) ∈ added ∨ Action.updateAll dt ∈ added) →
          dt = env.timePerFrame
  refine mainLoop_invariant env fuel R R ?_ ?_ ?_ samples app 0 r ⟨[], by simp⟩ hr
  · intro x hx _
    exact hx
  · intro x hx
    obtain ⟨added, h1, h2⟩ := hx
    refine ⟨added ++ tickActions env x, by rw [tick_trace, h1, List.append_assoc], ?_⟩
    intro dt hdt
    simp only [List.mem_append] at hdt
    rcases hdt with (h3 | h3) | (h3 | h3)
    · exact h2 dt (Or.inl h3)
    · exact mem_tickActions_dt env x dt (Or.inl h3)
    · exact h2 dt (Or.inr h3)
    · exact mem_tickActions_dt env x dt (Or.inr h3)
  · intro x s hx
    obtain ⟨added, h1, h2⟩ := hx
    refine ⟨added ++ renderSteps s,
      by rw [render_updateStatistics_eq_trace, h1, List.append_assoc], ?_⟩
    intro dt hdt
    simp only [List.mem_append] at hdt
    rcases hdt with (h3 | h3) | (h3 | h3)
    · exact h2 dt (Or.inl h3)
    · simp [renderSteps] at h3
    · exact h2 dt (Or.inr h3)
    · simp [renderSteps] at h3

/-! ## Input translation and the joystick deadband -/

theorem filter_specTranslation_analog (q : List RawEvent) :
    (q.filterMap specTranslation).filter Action.isAnalog = [] := by
  induction q with
  | nil => rfl
  | cons e q ih =>
    cases e <;>
      simp only [List.filterMap_cons, specTranslation, List.filter_cons, Action.isAnalog] <;>
      exact ih

/-- Claim C9: one call of `processEvents` with the X axis of joystick 0 at `v`
emits exactly one `JoystickXAnalogEvent`, carrying `v`, when `|v| > 45`, and none
when `|v| ≤ 45`; nothing but the current `v` enters the decision. -/
theorem joystick_deadband (env : Env σ) (app : App σ) :
    ((processEvents env app).trace.drop app.trace.length).filter Action.isAnalog
      = if |app.joystickX| > 45 then [Action.emit (Event.joystickXAnalog app.joystickX)]
        else [] := by
  rw [processEvents_eq]
  simp only [List.append_assoc, List.drop_left, List.filter_append,
    filter_specTranslation_analog]
  unfold specAnalog
  split_ifs <;> simp [Action.isAnalog]

theorem uptoClosed_eq (q : List RawEvent) :
    uptoClosed q
      = q.takeWhile (fun e => decide (e ≠ RawEvent.closed))
        ++ (if q.contains RawEvent.closed then [RawEvent.closed] else []) := by
  induction q with
  | nil => rfl
  | cons e q ih => cases e <;> simp [uptoClosed, ih, List.takeWhile]

theorem uptoClosed_contains (q : List RawEvent) :
    (uptoClosed q).contains RawEvent.closed = q.contains RawEvent.closed := by
  induction q with
  | nil => rfl
  | cons e q ih => cases e <;> simp_all [uptoClosed]

/-- Claim C10 as the code has it: one call of `processEvents` polls an open window
until the queue is empty or a raw `Closed` has been polled, and polls nothing
from a closed window. It records, after the call itself and in poll order, one
emission with the same payload for each raw key press and joystick button press
it polled, one `close` for the `Closed` that ends the polling, nothing for any
other raw event, and only then the possible `JoystickXAnalogEvent`; events
queued behind the first `Closed` are not translated. -/
theorem processEvents_translation (env : Env σ) (app : App σ) :
    (processEvents env app).trace
        = app.trace ++ [Action.processEvents]
          ++ (pollable app.isOpen app.queue).filterMap specTranslation
          ++ specAnalog app.joystickX
    ∧ pollable app.isOpen app.queue
        = (if app.isOpen then
            app.queue.takeWhile (fun e => decide (e ≠ RawEvent.closed))
              ++ (if app.queue.contains RawEvent.closed then [RawEvent.closed] else [])
          else [])
    ∧ (processEvents env app).queue = app.queue.drop (pollable app.isOpen app.queue).length
    ∧ (processEvents env app).isOpen = (app.isOpen && !app.queue.contains RawEvent.closed)
    ∧ ((pollable app.isOpen app.queue).filterMap specTranslation).filter Action.isAnalog
        = [] := by
  rw [processEvents_eq]
  refine ⟨rfl, ?_, rfl, ?_, filter_specTranslation_analog _⟩
  · unfold pollable
    cases h : app.isOpen
    · rfl
    · simp only [if_true]
      exact uptoClosed_eq _
  · show (app.isOpen && !(pollable app.isOpen app.queue).contains RawEvent.closed)
      = (app.isOpen && !app.queue.contains RawEvent.closed)
    cases h : app.isOpen
    · rfl
    · simp only [pollable, if_true, uptoClosed_contains]

/-! ## Leaving the loop -/

theorem mainLoop_closed (env : Env σ) (fuel : Nat) (app : App σ) (acc : Int)
    (samples : List Int) (hclosed : app.isOpen = false) :
    mainLoop env fuel app acc samples = some (app, acc) := by
  cases samples with
  | nil => rfl
  | cons s rest => simp [mainLoop, hclosed]

theorem iterate_tick_trace (env : Env σ) (n : Nat) (x : App σ) :
    x.trace <+: ((tick env)^[n] x).trace :=
  iterate_tick_invariant env (fun a => x.trace <+: a.trace)
    (fun a ha => by
      beta_reduce at ha ⊢
      rw [tick_trace]
      exact ha.trans (List.prefix_append _ _))
    n x (List.prefix_refl _)

theorem iterate_tick_renderSteps (env : Env σ) (n : Nat) (x : App σ) :
    ((tick env)^[n] x).trace.filter Action.isRenderStep = x.trace.filter Action.isRenderStep :=
  iterate_tick_invariant env
    (fun a => a.trace.filter Action.isRenderStep = x.trace.filter Action.isRenderStep)
    (fun a ha => by
      beta_reduce at ha ⊢
      rw [tick_trace, List.filter_append, tickActions_renderSteps]
      simpa using ha)
    n x rfl

theorem mainLoop_of_closing (env : Env σ) (h : 0 < env.timePerFrame) (app : App σ)
    (acc s : Int) (rest : List Int) (hopen : app.isOpen = true)
    (hclosed : ((tick env)^[rounds env (acc + s)]
      { app with frames := app.frames + 1 }).isOpen = false) (fuel : Nat) :
    mainLoop env fuel app acc (s :: rest)
      = if rounds env (acc + s) < fuel then
          some (render env (updateStatistics env s
              ((tick env)^[rounds env (acc + s)] { app with frames := app.frames + 1 })),
            acc + s - (rounds env (acc + s) : Int) * env.timePerFrame)
        else none := by
  unfold mainLoop
  rw [if_pos hopen, fixedUpdate_eq env h]
  by_cases hf : rounds env (acc + s) < fuel
  · rw [if_pos hf, if_pos hf]
    apply mainLoop_closed
    rw [(render_updateStatistics_fields env s _).1]
    exact hclosed
  · rw [if_neg hf, if_neg hf]

theorem tick_closes (env : Env σ) (x : App σ)
    (hclose : RawEvent.closed ∈ polled env x ∨ env.isEmpty (tick env x).ext = true) :
    (tick env x).isOpen = false := by
  rw [tick_isOpen]
  rcases hclose with hc | hc
  · simp [hc]
  · rw [tick_ext] at hc
    simp [hc]

theorem iterate_tick_split (env : Env σ) (k n : Nat) (x : App σ) (hk : k < n) :
    (tick env)^[n] x = (tick env)^[n - (k + 1)] (tick env ((tick env)^[k] x)) := by
  have hn : n = (n - (k + 1)) + (k + 1) := by omega
  conv_lhs => rw [hn]
  rw [Function.iterate_add_apply, Function.iterate_succ_apply']

/-- Claim C8: when a tick of the current round of the outer loop closes the window
(a `Closed` event is polled, or the state stack is empty after the tick), that
tick still records all its steps, the remaining ticks of the round are drained,
the render pass of the round is made exactly once, and `run` then leaves the
outer loop: the clock samples after the current one are never consumed. -/
theorem cancellation_completes (env : Env σ) (app x x1 : App σ) (acc s : Int)
    (rest : List Int) (k : Nat) (h : 0 < env.timePerFrame) (hopen : app.isOpen = true)
    (hx : x = (tick env)^[k] { app with frames := app.frames + 1 })
    (hx1 : x1 = (tick env)^[rounds env (acc + s)] { app with frames := app.frames + 1 })
    (hk : k < rounds env (acc + s))
    (hclose : RawEvent.closed ∈ polled env x ∨ env.isEmpty (tick env x).ext = true) :
    (tick env x).trace
        = x.trace
          ++ [Action.emit Event.beforeGameTick, Action.processEvents]
          ++ ((polled env x).filterMap specTranslation ++ specAnalog (env.axisX x.ticks))
          ++ [Action.emit (Event.gameTick env.timePerFrame), Action.updateAll env.timePerFrame,
              Action.emit Event.afterGameTick]
          ++ (if env.isEmpty (tick env x).ext then [Action.closeWindow] else [])
    ∧ (tick env x).isOpen = false
    ∧ (∃ fuel r, mainLoop env fuel app acc (s :: rest) = some r)
    ∧ ∀ fuel r, mainLoop env fuel app acc (s :: rest) = some r →
        r.1 = render env (updateStatistics env s x1)
        ∧ (tick env x).trace <+: x1.trace
        ∧ r.1.trace = x1.trace ++ renderSteps s
        ∧ r.1.trace.filter Action.isRenderStep
            = app.trace.filter Action.isRenderStep ++ renderSteps s
        ∧ r.1.isOpen = false
        ∧ r.1.frames = app.frames + 1 := by
  have hsplit := iterate_tick_split env k (rounds env (acc + s))
    { app with frames := app.frames + 1 } hk
  rw [← hx, ← hx1] at hsplit
  have hxc : (tick env x).isOpen = false := tick_closes env x hclose
  have hx1c : x1.isOpen = false := by
    rw [hsplit]
    exact iterate_tick_of_closed env _ _ hxc
  have hloop := mainLoop_of_closing env h app acc s rest hopen (by rw [← hx1]; exact hx1c)
  rw [← hx1] at hloop
  refine ⟨?_, hxc, ⟨rounds env (acc + s) + 1, ?_⟩, ?_⟩
  · rw [tick_trace, tick_ext]
    simp [tickActions]
  · rw [hloop, if_pos (Nat.lt_succ_self _)]
    exact ⟨_, rfl⟩
  · intro fuel r hr
    rw [hloop] at hr
    split_ifs at hr
    cases hr
    obtain ⟨f1, _, f3, _, _⟩ := render_updateStatistics_fields env s x1
    refine ⟨rfl, ?_, render_updateStatistics_eq_trace env s x1, ?_, ?_, ?_⟩
    · rw [hsplit]
      exact iterate_tick_trace env _ _
    · show (render env (updateStatistics env s x1)).trace.filter Action.isRenderStep = _
      rw [render_updateStatistics_eq_trace, List.filter_append, renderSteps_renderSteps, hx1,
        iterate_tick_renderSteps]
    · show (render env (updateStatistics env s x1)).isOpen = false
      rw [f1]
      exact hx1c
    · show (render env (updateStatistics env s x1)).frames = app.frames + 1
      rw [f3, hx1, iterate_tick_frames]

/-- Claim C7 as the code has it: when the state stack is found empty at the end of a
tick, `close` is called right after the after-tick event; the remaining ticks of
the current round of the outer loop and its render pass are still performed,
and `run` then leaves the outer loop, so no tick and no render pass happens
after the current round. -/
theorem exit_on_empty_stack (env : Env σ) (app x x1 : App σ) (acc s : Int)
    (rest : List Int) (k : Nat) (h : 0 < env.timePerFrame) (hopen : app.isOpen = true)
    (hx : x = (tick env)^[k] { app with frames := app.frames + 1 })
    (hx1 : x1 = (tick env)^[rounds env (acc + s)] { app with frames := app.frames + 1 })
    (hk : k < rounds env (acc + s))
    (hempty : env.isEmpty (tick env x).ext = true) :
    (∃ before, (tick env x).trace
        = before ++ [Action.emit Event.afterGameTick, Action.closeWindow])
    ∧ (tick env x).isOpen = false
    ∧ (∃ fuel r, mainLoop env fuel app acc (s :: rest) = some r)
    ∧ ∀ fuel r, mainLoop env fuel app acc (s :: rest) = some r →
        mainLoop env fuel app acc [s] = some r
        ∧ r.1.isOpen = false
        ∧ r.1.ticks = app.ticks + rounds env (acc + s)
        ∧ r.1.frames = app.frames + 1
        ∧ r.1.trace = x1.trace ++ renderSteps s := by
  have hsplit := iterate_tick_split env k (rounds env (acc + s))
    { app with frames := app.frames + 1 } hk
  rw [← hx, ← hx1] at hsplit
  have hxc : (tick env x).isOpen = false := tick_closes env x (Or.inr hempty)
  have hx1c : x1.isOpen = false := by
    rw [hsplit]
    exact iterate_tick_of_closed env _ _ hxc
  have hloop := fun l => mainLoop_of_closing env h app acc s l hopen (by rw [← hx1]; exact hx1c)
  simp only [← hx1] at hloop
  refine ⟨?_, hxc, ⟨rounds env (acc + s) + 1, ?_⟩, ?_⟩
  · rw [tick_ext] at hempty
    rw [tick_trace]
    refine ⟨x.trace ++ [Action.emit Event.beforeGameTick, Action.processEvents]
      ++ ((polled env x).filterMap specTranslation ++ specAnalog (env.axisX x.ticks))
      ++ [Action.emit (Event.gameTick env.timePerFrame), Action.updateAll env.timePerFrame], ?_⟩
    simp [tickActions, hempty]
  · rw [hloop, if_pos (Nat.lt_succ_self _)]
    exact ⟨_, rfl⟩
  · intro fuel r hr
    rw [hloop] at hr ⊢
    split_ifs at hr with hf
    rw [if_pos hf]
    cases hr
    obtain ⟨f1, f2, f3, _, _⟩ := render_updateStatistics_fields env s x1
    refine ⟨rfl, ?_, ?_, ?_, render_updateStatistics_eq_trace env s x1⟩
    · show (render env (updateStatistics env s x1)).isOpen = false
      rw [f1]
      exact hx1c
    · show (render env (updateStatistics env s x1)).ticks = _
      rw [f2, hx1, iterate_tick_ticks]
    · show (render env (updateStatistics env s x1)).frames = app.frames + 1
      rw [f3, hx1, iterate_tick_frames]

/-! ## The state stack -/

/-- Scenario of the spec: accumulator zero and one sample of two tick durations
give exactly two ticks and accumulator zero. -/
theorem two_tick_scenario :
    (run demoEnv 3 demoApp [33332]).map (fun r => (r.1.ticks, r.2, r.1.frames))
      = some (2, 0, 1) := by
  decide

/-- Scenario of the spec: the axis at 50 gives one analog event carrying 50, the
axis at 30 and the boundaries 45 and -45 give none, and -46 gives one. -/
theorem joystick_scenarios :
    (processEvents demoEnv { demoApp with joystickX := 50 }).trace
        = [Action.processEvents, Action.emit (Event.joystickXAnalog 50)]
    ∧ (processEvents demoEnv { demoApp with joystickX := 30 }).trace = [Action.processEvents]
    ∧ (processEvents demoEnv { demoApp with joystickX := 45 }).trace = [Action.processEvents]
    ∧ (processEvents demoEnv { demoApp with joystickX := -45 }).trace = [Action.processEvents]
    ∧ (processEvents demoEnv { demoApp with joystickX := -46 }).trace
        = [Action.processEvents, Action.emit (Event.joystickXAnalog (-46))] := by
  decide

/-- Scenario of the spec: state `1` is live and requests `push 2` during a tick; at
the end of that tick, and of a run of one tick, the live stack is `[1, 2]` and
nothing is pending; before the after-tick event the request is still pending. -/
theorem flush_scenario :
    (tick flushingEnv (freshApp { live := [1], pending := [] })).ext
        = { live := [1, 2], pending := [] }
    ∧ flushingEnv.updateAll 10 (flushingEnv.handlers (Event.gameTick 10)
          (inputExt flushingEnv (freshApp { live := [1], pending := [] })))
        = { live := [1], pending := [PendingChange.push 2] }
    ∧ (run flushingEnv 2 (freshApp { live := [1], pending := [] }) [10]).map
          (fun r => (r.1.ticks, r.1.ext, r.1.isOpen))
        = some (1, { live := [1, 2], pending := [] }, true) := by
  decide

/-- Scenario: in the next tick state `2` requests `clear`; the flush of that tick
empties the stack, `isEmpty` is true at the end of the tick and the window is
closed. -/
theorem clear_scenario :
    (run flushingEnv 2 (freshApp { live := [1], pending := [] }) [10, 10]).map
          (fun r => (r.1.ticks, r.1.ext, r.1.isOpen))
        = some (2, { live := [], pending := [] }, false) := by
  decide

/-- Refutation of claim C10 as stated: a key press is queued behind a `Closed`; the
call closes the window and the next `pollEvent` returns `false`, so the key press
is not polled and no `KeyPressedEvent` is emitted, whereas translating the whole
queue would have emitted it. -/
theorem processEvents_counterexample :
    (processEvents demoEnv
        { demoApp with queue := [RawEvent.closed, RawEvent.keyPressed 7] }).trace
        = [Action.processEvents, Action.closeWindow]
    ∧ (processEvents demoEnv
        { demoApp with queue := [RawEvent.closed, RawEvent.keyPressed 7] }).queue
        = [RawEvent.keyPressed 7]
    ∧ [RawEvent.closed, RawEvent.keyPressed 7].filterMap specTranslation
        = [Action.closeWindow, Action.emit (Event.keyPressed 7)] := by
  decide

/-- Scenario: the window is closed in the first tick and a key press arrives for
the second tick of the same round; the second tick polls nothing. -/
theorem closed_window_polls_nothing :
    (run (popEnv 10 (fun n => if n = 0 then [RawEvent.closed] else [RawEvent.keyPressed 9])
          (fun _ => 0)) 3 demoApp [20]).map (fun r => r.1.trace)
      = some
          [Action.emit Event.beforeGameTick, Action.processEvents, Action.closeWindow,
           Action.emit (Event.gameTick 10), Action.updateAll 10,
           Action.emit Event.afterGameTick,
           Action.emit Event.beforeGameTick, Action.processEvents,
           Action.emit (Event.gameTick 10), Action.updateAll 10,
           Action.emit Event.afterGameTick,
           Action.updateStatistics 20, Action.clear, Action.setView,
           Action.emit Event.render, Action.draw, Action.drawStatistics, Action.display] := by
  decide

/-- Scenario: a full tick with input, then the render pass, in program order. -/
theorem closing_run_trace :
    (run closingEnv 3 demoApp [15, 10]).map (fun r => (r.1.trace, r.1.isOpen, r.1.frames, r.2))
      = some
          ([Action.emit Event.beforeGameTick, Action.processEvents,
            Action.emit (Event.keyPressed 7), Action.closeWindow,
            Action.emit (Event.joystickXAnalog 50),
            Action.emit (Event.gameTick 10), Action.updateAll 10,
            Action.emit Event.afterGameTick,
            Action.updateStatistics 15, Action.clear, Action.setView,
            Action.emit Event.render, Action.draw, Action.drawStatistics, Action.display],
           false, 1, 5) := by
  decide

/-- Refutation of claim C7 as stated: the only state is removed in the first tick,
so the stack is found empty at the end of that tick and `close` is called; the
accumulator still holds one tick, so a second fixed tick is executed after it,
and the render pass of the round is performed after both. -/
theorem exit_on_empty_counterexample :
    emptyingEnv.isEmpty (tick emptyingEnv lastStateStart).ext = true
    ∧ (tick emptyingEnv lastStateStart).trace
        = [Action.emit Event.beforeGameTick, Action.processEvents,
           Action.emit (Event.gameTick 10), Action.updateAll 10,
           Action.emit Event.afterGameTick, Action.closeWindow]
    ∧ (run emptyingEnv 3 lastStateApp [20, 20]).map (fun r => r.1.trace)
        = some
            ((tick emptyingEnv lastStateStart).trace
              ++ [Action.emit Event.beforeGameTick, Action.processEvents,
                  Action.emit (Event.gameTick 10), Action.updateAll 10,
                  Action.emit Event.afterGameTick, Action.closeWindow,
                  Action.updateStatistics 20, Action.clear, Action.setView,
                  Action.emit Event.render, Action.draw, Action.drawStatistics,
                  Action.display]) := by
  decide

/-! ## The theorems at concrete inputs -/

/-- Instance of `run_drains_floor`: one sample of two tick durations. -/
theorem run_drains_floor_witness :
    0 < demoEnv.timePerFrame
    ∧ (∀ s ∈ [(33332 : Int)], 0 ≤ s)
    ∧ (∃ fuel r, run demoEnv fuel demoApp [33332] = some r)
    ∧ ∀ fuel r, run demoEnv fuel demoApp [33332] = some r →
        r.1.frames - demoApp.frames ≤ [(33332 : Int)].length
        ∧ (r.1.isOpen = true → r.1.frames - demoApp.frames = [(33332 : Int)].length)
        ∧ ((r.1.ticks - demoApp.ticks : Nat) : Int)
            = ([(33332 : Int)].take (r.1.frames - demoApp.frames)).sum / demoEnv.timePerFrame
        ∧ r.2 = ([(33332 : Int)].take (r.1.frames - demoApp.frames)).sum
            % demoEnv.timePerFrame :=
  ⟨by decide, by decide, run_drains_floor demoEnv demoApp [33332] (by decide) (by decide)⟩

/-- Instance of `accumulator_invariant`: accumulator 5, sample 40, tick 10. -/
theorem accumulator_invariant_witness :
    0 < emptyingEnv.timePerFrame ∧ (0 : Int) ≤ 5 ∧ (0 : Int) ≤ 40
    ∧ (∃ fuel r, fixedUpdate emptyingEnv fuel demoApp (5 + 40) = some r)
    ∧ ∀ fuel r, fixedUpdate emptyingEnv fuel demoApp (5 + 40) = some r →
        0 ≤ r.2 ∧ r.2 < emptyingEnv.timePerFrame :=
  ⟨by decide, by decide, by decide,
    accumulator_invariant emptyingEnv demoApp 5 40 (by decide) (by decide) (by decide)⟩

/-- Instance of `one_render_per_iteration`: rounds with zero, one and three ticks. -/
theorem one_render_per_iteration_witness :
    0 < emptyingEnv.timePerFrame
    ∧ (∃ fuel r, run emptyingEnv fuel (freshApp [1, 2, 3, 4, 5]) [4, 8, 30] = some r)
    ∧ ∀ fuel r, run emptyingEnv fuel (freshApp [1, 2, 3, 4, 5]) [4, 8, 30] = some r →
        r.1.frames - (freshApp [1, 2, 3, 4, 5]).frames ≤ [(4 : Int), 8, 30].length
        ∧ r.1.trace.filter Action.isRenderStep
            = (freshApp [1, 2, 3, 4, 5]).trace.filter Action.isRenderStep
              ++ (([(4 : Int), 8, 30].take
                    (r.1.frames - (freshApp [1, 2, 3, 4, 5]).frames)).map renderSteps).flatten :=
  ⟨by decide,
    (one_render_per_iteration emptyingEnv (freshApp [1, 2, 3, 4, 5]) [4, 8, 30] (by decide)).2⟩

/-- Instance of `tick_order`: a run that drains four ticks in three rounds. -/
theorem tick_order_witness :
    0 < emptyingEnv.timePerFrame
    ∧ (∃ fuel r, run emptyingEnv fuel (freshApp [1, 2, 3, 4, 5]) [4, 8, 30] = some r)
    ∧ ∀ fuel r, run emptyingEnv fuel (freshApp [1, 2, 3, 4, 5]) [4, 8, 30] = some r →
        (freshApp [1, 2, 3, 4, 5]).ticks ≤ r.1.ticks
        ∧ r.1.trace.filter Action.isTickStep
            = (freshApp [1, 2, 3, 4, 5]).trace.filter Action.isTickStep
              ++ (List.replicate (r.1.ticks - (freshApp [1, 2, 3, 4, 5]).ticks)
                    (tickSteps emptyingEnv.timePerFrame)).flatten
        ∧ ∃ blocks : List (List Action),
            r.1.trace = (freshApp [1, 2, 3, 4, 5]).trace ++ blocks.flatten
            ∧ ∀ b ∈ blocks,
                (∃ x, (tick emptyingEnv x).trace = x.trace ++ b) ∨ (∃ s, b = renderSteps s) :=
  ⟨by decide, (tick_order emptyingEnv (freshApp [1, 2, 3, 4, 5]) [4, 8, 30] (by decide)).2⟩

/-- Instance of `constant_dt`: a run with input on the first tick. -/
theorem constant_dt_witness :
    0 < closingEnv.timePerFrame
    ∧ (∃ fuel r, run closingEnv fuel demoApp [15, 10] = some r)
    ∧ ∀ fuel r, run closingEnv fuel demoApp [15, 10] = some r →
        ∃ added, r.1.trace = demoApp.trace ++ added
          ∧ ∀ dt, (Action.emit (Event.gameTick dt) ∈ added ∨ Action.updateAll dt ∈ added) →
              dt = closingEnv.timePerFrame :=
  ⟨by decide, constant_dt closingEnv demoApp [15, 10] (by decide)⟩

/-- Instance of `exit_on_empty_stack`: the only state is removed in the first of two
ticks of the first round. -/
theorem exit_on_empty_stack_witness :
    0 < emptyingEnv.timePerFrame ∧ lastStateApp.isOpen = true
    ∧ 0 < rounds emptyingEnv (0 + 20)
    ∧ emptyingEnv.isEmpty (tick emptyingEnv lastStateStart).ext = true
    ∧ (∃ before, (tick emptyingEnv lastStateStart).trace
        = before ++ [Action.emit Event.afterGameTick, Action.closeWindow])
    ∧ (tick emptyingEnv lastStateStart).isOpen = false
    ∧ (∃ fuel r, mainLoop emptyingEnv fuel lastStateApp 0 [20, 20] = some r)
    ∧ ∀ fuel r, mainLoop emptyingEnv fuel lastStateApp 0 [20, 20] = some r →
        mainLoop emptyingEnv fuel lastStateApp 0 [20] = some r
        ∧ r.1.isOpen = false
        ∧ r.1.ticks = lastStateApp.ticks + rounds emptyingEnv (0 + 20)
        ∧ r.1.frames = lastStateApp.frames + 1
        ∧ r.1.trace = ((tick emptyingEnv)^[2] lastStateStart).trace ++ renderSteps 20 :=
  ⟨by decide, by decide, by decide, by decide,
    exit_on_empty_stack emptyingEnv lastStateApp lastStateStart
      ((tick emptyingEnv)^[2] lastStateStart) 0 20 [20] 0
      (by decide) (by decide) rfl rfl (by decide) (by decide)⟩

/-- Instance of `cancellation_completes`: a `Closed` event is polled in the first of
two ticks of the first round. -/
theorem cancellation_completes_witness :
    0 < closingEnv.timePerFrame ∧ demoApp.isOpen = true
    ∧ 0 < rounds closingEnv (0 + 25)
    ∧ (RawEvent.closed ∈ polled closingEnv demoStart
        ∨ closingEnv.isEmpty (tick closingEnv demoStart).ext = true)
    ∧ (tick closingEnv demoStart).trace
        = demoStart.trace
          ++ [Action.emit Event.beforeGameTick, Action.processEvents]
          ++ ((polled closingEnv demoStart).filterMap specTranslation
              ++ specAnalog (closingEnv.axisX demoStart.ticks))
          ++ [Action.emit (Event.gameTick closingEnv.timePerFrame),
              Action.updateAll closingEnv.timePerFrame, Action.emit Event.afterGameTick]
          ++ (if closingEnv.isEmpty (tick closingEnv demoStart).ext then [Action.closeWindow]
              else [])
    ∧ (tick closingEnv demoStart).isOpen = false
    ∧ (∃ fuel r, mainLoop closingEnv fuel demoApp 0 [25, 10] = some r)
    ∧ ∀ fuel r, mainLoop closingEnv fuel demoApp 0 [25, 10] = some r →
        r.1 = render closingEnv (updateStatistics closingEnv 25 ((tick closingEnv)^[2] demoStart))
        ∧ (tick closingEnv demoStart).trace <+: ((tick closingEnv)^[2] demoStart).trace
        ∧ r.1.trace = ((tick closingEnv)^[2] demoStart).trace ++ renderSteps 25
        ∧ r.1.trace.filter Action.isRenderStep
            = demoApp.trace.filter Action.isRenderStep ++ renderSteps 25
        ∧ r.1.isOpen = false
        ∧ r.1.frames = demoApp.frames + 1 :=
  ⟨by decide, by decide, by decide, Or.inl (by decide),
    cancellation_completes closingEnv demoApp demoStart ((tick closingEnv)^[2] demoStart)
      0 25 [10] 0 (by decide) (by decide) rfl rfl (by decide) (Or.inl (by decide))⟩

end Application
